import Mathlib

/-!
Shallow embedding of the DSP toolkit `MIR_Assignment_1_20191048.py`
(tone synthesis, Shepard-tone amplitude table, STFT spectrogram,
mel/dB conversion).  Real-valued tensor entries are modelled as `ℝ`,
1-D tensors as `List ℝ`, 2-D tensors as `List (List ℝ)` (row = first
axis).  Durations and sample rates are modelled as `ℚ` so that the
index arithmetic of `torch.arange`/`torch.zeros` (floor/ceil of
`dur * sr`) is exact.
-/

namespace MIR

open Real

/-- Model of Python `range(i, stop, step)` for natural start/step and a
natural `stop` (a non-positive Python stop is passed as `0`): the list
`[i, i+step, i+2*step, ...]` of all values below `stop`. -/
def rangeStep (i stop step : ℕ) : List ℕ :=
  if _h : i < stop ∧ 0 < step then i :: rangeStep (i + step) stop step else []
termination_by stop - i
decreasing_by omega

/-- Model of `torch.hann_window n` (default `periodic=True`):
value at index `n` is `1/2 * (1 - cos (2*π*n/N))`. -/
noncomputable def hann_window (N : ℕ) : List ℝ :=
  (List.range N).map (fun n : ℕ => 1 / 2 * (1 - Real.cos (2 * π * n / N)))

/-- Model of `torch.fft.fft` on a real 1-D tensor: the discrete Fourier
transform, one complex output per input sample. -/
noncomputable def fft (x : List ℝ) : List ℂ :=
  (List.range x.length).map (fun n : ℕ =>
    ∑ k ∈ Finset.range x.length,
      (x.getD k 0 : ℂ) * Complex.exp (-2 * (π : ℂ) * Complex.I * n * k / x.length))

/-- Model of `SpectrogramConverter.get_spectrogram` on 1-D input (the
source's stereo branch collapses 2-D input to 1-D first and is
unreachable for the 1-D inputs the development concerns).  Frames start
at `range(0, len(audio) - n_fft + 1, hop_size)`; each frame is sliced,
multiplied by the Hann window (`self.window_tensor`), transformed,
`abs`-ed and raised to `power`; `torch.stack` on an empty frame list
raises, modelled as `none`; the stacked `(n_fft, num_frames)` tensor is
then row-sliced by `[:n_fft//2+1]`. -/
noncomputable def get_spectrogram (audio : List ℝ) (n_fft hop_size : ℕ)
    (power : ℝ) : Option (List (List ℝ)) :=
  let starts := rangeStep 0 ((audio.length : ℤ) - n_fft + 1).toNat hop_size
  let frames := starts.map (fun s =>
    (fft (List.zipWith (· * ·) ((audio.drop s).take n_fft) (hann_window n_fft))).map
      (fun z => Complex.abs z ^ power))
  if frames = [] then none
  else
    some (((List.range frames.headI.length).map
      (fun r => frames.map (fun c => c.getD r 0))).take (n_fft / 2 + 1))

lemma rangeStep_length (step : ℕ) (hs : 0 < step) :
    ∀ (d i stop : ℕ), stop - i ≤ d →
      (rangeStep i stop step).length = (stop - i + step - 1) / step := by
  intro d
  induction d with
  | zero =>
    intro i stop h
    rw [rangeStep]
    have hi : ¬ i < stop := by omega
    simp only [hi, false_and, dite_false, List.length_nil]
    have : stop - i + step - 1 = step - 1 := by omega
    rw [this]
    exact (Nat.div_eq_of_lt (by omega)).symm
  | succ d ih =>
    intro i stop h
    rw [rangeStep]
    by_cases hi : i < stop
    · simp only [hi, hs, and_self, dite_true, List.length_cons]
      rw [ih (i + step) stop (by omega)]
      by_cases hcase : step ≤ stop - i
      · have h1 : stop - (i + step) + step - 1 = (stop - i - 1) + step - step := by omega
        have h2 : stop - i + step - 1 = (stop - i - 1) + step := by omega
        rw [h2]
        have h3 : stop - (i + step) + step - 1 = stop - i - 1 := by omega
        rw [h3, Nat.add_div_right _ hs]
      · have h1 : stop - (i + step) = 0 := by omega
        rw [h1]
        have h2 : stop - i + step - 1 = (stop - i - 1) + step := by omega
        rw [h2, Nat.add_div_right _ hs, Nat.div_eq_of_lt (by omega),
          Nat.div_eq_of_lt (by omega)]
    · simp only [hi, false_and, dite_false, List.length_nil]
      have : stop - i + step - 1 = step - 1 := by omega
      rw [this]
      exact (Nat.div_eq_of_lt (by omega)).symm

lemma rangeStep_mem_lt (step : ℕ) :
    ∀ (d i stop : ℕ), stop - i ≤ d → ∀ x ∈ rangeStep i stop step, x < stop := by
  intro d
  induction d with
  | zero =>
    intro i stop h x hx
    rw [rangeStep] at hx
    have hi : ¬ i < stop := by omega
    simp [hi] at hx
  | succ d ih =>
    intro i stop h x hx
    rw [rangeStep] at hx
    by_cases hi : i < stop ∧ 0 < step
    · rw [dif_pos hi] at hx
      obtain ⟨hi1, hi2⟩ := hi
      rcases List.mem_cons.mp hx with h1 | h1
      · omega
      · exact ih (i + step) stop (by omega) x h1
    · rw [dif_neg hi] at hx
      simp at hx

lemma hann_window_length (N : ℕ) : (hann_window N).length = N := by
  simp [hann_window]

lemma fft_length (x : List ℝ) : (fft x).length = x.length := by
  simp [fft]

lemma getD_range_map {α : Type*} (f : ℕ → α) (n i : ℕ) (h : i < n) (d : α) :
    ((List.range n).map f).getD i d = f i := by
  have hlen : i < ((List.range n).map f).length := by simpa using h
  rw [List.getD_eq_getElem _ _ hlen]
  simp

/-- Model of `midi_pitch_to_hz`: `440 * 2 ** ((midi_pitch - 69) / 12)`. -/
noncomputable def midi_pitch_to_hz (midi_pitch : ℝ) : ℝ :=
  440 * (2 : ℝ) ^ ((midi_pitch - 69) / 12)

/-- Model of `make_sine_wave(freq, amp, dur, sr)`:
`num_samples = dur * sr` (a float), `torch.arange(num_samples)` yields the
integers `0, 1, ...` below `num_samples`, i.e. `⌈dur * sr⌉` of them (clipped
at zero), and each sample `n` is `amp * sin(2 * π * freq * (n / sr))`. -/
noncomputable def make_sine_wave (freq amp : ℝ) (dur sr : ℚ) : List ℝ :=
  (List.range (⌈dur * sr⌉.toNat)).map
    (fun n : ℕ => amp * Real.sin (2 * π * freq * (n / (sr : ℝ))))

/-- Error kinds raised by `generate_multi_pitch_tone`: the failed
`assert len(pitch_list) == len(amp_list)`, and the runtime shape error of
the in-place `chord_tone += sine_wave`. -/
inductive ToneError
  | lengthMismatch
  | sizeMismatch
deriving DecidableEq

/-- Model of the in-place PyTorch addition `acc += x` for 1-D tensors:
it succeeds elementwise when the lengths agree, broadcasts `x` when `x`
has a single element (the broadcast result shape `acc.length` matches the
in-place destination), and raises a shape error otherwise. -/
def addInPlace (acc x : List ℝ) : Option (List ℝ) :=
  if x.length = acc.length then some (List.zipWith (· + ·) acc x)
  else if x.length = 1 then some (acc.map (· + x.headI))
  else none

/-- The summation loop of `generate_multi_pitch_tone`: fold the per-partial
sine waves into the accumulator with `addInPlace`. -/
noncomputable def sumSines (dur sr : ℚ) : List (ℝ × ℝ) → List ℝ → Except ToneError (List ℝ)
  | [], acc => .ok acc
  | fa :: rest, acc =>
    (addInPlace acc (make_sine_wave fa.1 fa.2 dur sr)).elim
      (.error .sizeMismatch) (fun acc2 => sumSines dur sr rest acc2)

/-- Model of `generate_multi_pitch_tone(pitch_list, amp_list, duration, sr)`:
after the length assert, each pitch is converted to Hz, the accumulator is
`torch.zeros(int(duration * sr))` (Python `int` truncation, i.e. `⌊·⌋` for the
non-negative durations the program uses), and each sine wave is added
in place. -/
noncomputable def generate_multi_pitch_tone (pitch_list amp_list : List ℝ)
    (duration sr : ℚ) : Except ToneError (List ℝ) :=
  if pitch_list.length = amp_list.length then
    sumSines duration sr (List.zip (pitch_list.map midi_pitch_to_hz) amp_list)
      (List.replicate (⌊duration * sr⌋.toNat) 0)
  else .error .lengthMismatch

/-- First pass of `ShepardToneGenerator.define_amplitude`: row `i` is
`[0, 1, exp (-0.388 * i)]` (column 0 still holds the `torch.zeros` initial
value, column 1 is kept at amplitude 1, column 2 decays exponentially). -/
noncomputable def amp_pass1 : List (List ℝ) :=
  (List.range 24).map (fun i : ℕ => [0, 1, Real.exp (-0.388 * i)])

/-- Model of `ShepardToneGenerator.define_amplitude`: the second pass
overwrites only column 0 with `output[23 - i, 2]`; since the second pass
never writes column 2, the value read is the first-pass one. -/
noncomputable def define_amplitude : List (List ℝ) :=
  (List.range 24).map (fun i : ℕ =>
    [(amp_pass1.getD (23 - i) []).getD 2 0,
     (amp_pass1.getD i []).getD 1 0,
     (amp_pass1.getD i []).getD 2 0])

/-- Model of one entry of `SpectrogramConverter.amplitude_to_db`:
`10 * torch.log10(torch.clamp(x, min=eps))`, with `clamp` as `max`. -/
noncomputable def amplitude_to_db (x eps : ℝ) : ℝ :=
  10 * Real.logb 10 (max x eps)

/-- `amplitude_to_db` applied elementwise to a 2-D spectrogram. -/
noncomputable def amplitude_to_db_map (spec : List (List ℝ)) (eps : ℝ) :
    List (List ℝ) :=
  spec.map (fun row => row.map (fun x => amplitude_to_db x eps))

/-- Model of `SpectrogramConverter.hz_to_mel`: `2595 * torch.log10(1 + hz/700)`. -/
noncomputable def hz_to_mel (hz : ℝ) : ℝ :=
  2595 * Real.logb 10 (1 + hz / 700)

/-- The mel formula exactly as the spec words it: `2595 · log10(1 + hz/700)`. -/
noncomputable def hzToMel_spec_formula (hz : ℝ) : ℝ :=
  2595 * Real.logb 10 (1 + hz / 700)

lemma make_sine_wave_length (freq amp : ℝ) (dur sr : ℚ) :
    (make_sine_wave freq amp dur sr).length = ⌈dur * sr⌉.toNat := by
  simp [make_sine_wave]

lemma zipWith_add_replicate_zero (l : List ℝ) :
    List.zipWith (· + ·) (List.replicate l.length (0 : ℝ)) l = l := by
  induction l with
  | nil => rfl
  | cons x xs ih =>
    rw [List.length_cons, List.replicate_succ, List.zipWith_cons_cons, zero_add, ih]

lemma sumSines_ne_lengthMismatch (dur sr : ℚ) :
    ∀ (L : List (ℝ × ℝ)) (acc : List ℝ),
      sumSines dur sr L acc ≠ .error .lengthMismatch := by
  intro L
  induction L with
  | nil =>
    intro acc h
    rw [sumSines] at h
    exact Except.noConfusion h
  | cons fa rest ih =>
    intro acc h
    rw [sumSines] at h
    cases haa : addInPlace acc (make_sine_wave fa.1 fa.2 dur sr) with
    | none => rw [haa] at h; simp [Option.elim] at h
    | some acc2 => rw [haa] at h; exact ih acc2 h

lemma sumSines_nil_acc (dur sr : ℚ) (hone : ⌈dur * sr⌉.toNat = 1) :
    ∀ L : List (ℝ × ℝ), sumSines dur sr L [] = .ok [] := by
  intro L
  induction L with
  | nil => rw [sumSines]
  | cons fa rest ih =>
    rw [sumSines]
    have hadd : addInPlace [] (make_sine_wave fa.1 fa.2 dur sr) = some [] := by
      unfold addInPlace
      rw [make_sine_wave_length, hone]
      norm_num
    rw [hadd]
    exact ih

lemma ceil_of_not_int {q : ℚ} (h : ¬ ∃ n : ℤ, q = n) : ⌈q⌉ = ⌊q⌋ + 1 := by
  have h1 : (⌊q⌋ : ℚ) ≠ q := fun he => h ⟨⌊q⌋, he.symm⟩
  have h2 : (⌊q⌋ : ℚ) < q := lt_of_le_of_ne (Int.floor_le q) h1
  have h3 : q < ⌊q⌋ + 1 := Int.lt_floor_add_one q
  have hle : ⌈q⌉ ≤ ⌊q⌋ + 1 := Int.ceil_le.mpr (by exact_mod_cast h3.le)
  have hge : ⌊q⌋ < ⌈q⌉ := by
    have hq : (⌊q⌋ : ℚ) < (⌈q⌉ : ℚ) := lt_of_lt_of_le h2 (Int.le_ceil q)
    exact_mod_cast hq
  omega

lemma generate_69_half :
    generate_multi_pitch_tone [(69 : ℝ)] [1] (1 / 2) 1 = .ok [] := by
  have hfl : ⌊(1 / 2 : ℚ) * 1⌋ = 0 := by
    apply Int.floor_eq_iff.mpr
    norm_num
  have hce : ⌈(1 / 2 : ℚ) * 1⌉ = 1 := by
    apply Int.ceil_eq_iff.mpr
    norm_num
  unfold generate_multi_pitch_tone
  have hcond : ([(69 : ℝ)] : List ℝ).length = ([1] : List ℝ).length := rfl
  rw [if_pos hcond]
  have hacc : List.replicate (⌊(1 / 2 : ℚ) * 1⌋.toNat) (0 : ℝ) = [] := by
    rw [hfl]; rfl
  simp only [List.map_cons, List.map_nil, List.zip_cons_cons, List.zip_nil_right]
  rw [hacc, sumSines]
  have hadd : addInPlace []
      (make_sine_wave (midi_pitch_to_hz 69) 1 (1 / 2) 1) = some [] := by
    unfold addInPlace
    rw [make_sine_wave_length, hce]
    norm_num
  rw [hadd]
  rfl

/-- C7 (amended): `make_sine_wave(f, a, d, sr)` returns a waveform of exactly
`⌈d*sr⌉` samples (`torch.arange(d*sr)` rounds the endpoint up, not to the
nearest integer), whose `n`-th sample is `a·sin(2π·f·n/sr)`; duration 0
yields an empty waveform. -/
theorem make_sine_wave_spec (freq amp : ℝ) (dur sr : ℚ) :
    (make_sine_wave freq amp dur sr).length = ⌈dur * sr⌉.toNat ∧
    (∀ n : ℕ, n < (make_sine_wave freq amp dur sr).length →
      (make_sine_wave freq amp dur sr).getD n 0
        = amp * Real.sin (2 * π * freq * (n / (sr : ℝ)))) ∧
    (dur = 0 → make_sine_wave freq amp dur sr = []) := by
  refine ⟨make_sine_wave_length freq amp dur sr, ?_, ?_⟩
  · intro n hn
    rw [make_sine_wave_length] at hn
    unfold make_sine_wave
    exact getD_range_map _ _ _ hn _
  · intro h
    subst h
    simp [make_sine_wave]

/-- Witness for C7 at `dur = 0`. -/
theorem make_sine_wave_spec_witness : make_sine_wave 0 1 0 1 = [] :=
  (make_sine_wave_spec 0 1 0 1).2.2 rfl

/-- C7 counterexample: at `dur = 1/4`, `sr = 1` the code produces
`⌈1/4⌉ = 1` sample, not `round(1/4) = 0` as the claim states. -/
theorem make_sine_wave_round_cex :
    (make_sine_wave 1 1 (1 / 4) 1).length ≠ (round ((1 / 4 : ℚ) * 1)).toNat := by
  rw [make_sine_wave_length]
  have hce : ⌈(1 / 4 : ℚ) * 1⌉ = 1 := by
    apply Int.ceil_eq_iff.mpr
    norm_num
  have hro : round ((1 / 4 : ℚ) * 1) = 0 := by
    rw [round_eq]
    apply Int.floor_eq_iff.mpr
    norm_num
  rw [hce, hro]
  norm_num

/-- C4 (amended): for a single partial, `generate_multi_pitch_tone [p] [a] d sr`
equals `make_sine_wave (midi_pitch_to_hz p) a d sr` sample-for-sample,
provided `d*sr` is a (natural) integer so that the zero accumulator and the
sine wave have the same length. -/
theorem generate_single_tone (p a : ℝ) (dur sr : ℚ) (h : ∃ m : ℕ, dur * sr = m) :
    generate_multi_pitch_tone [p] [a] dur sr
      = .ok (make_sine_wave (midi_pitch_to_hz p) a dur sr) := by
  obtain ⟨m, hm⟩ := h
  have hfl : ⌊dur * sr⌋ = m := by rw [hm]; exact Int.floor_natCast m
  have hce : ⌈dur * sr⌉ = m := by rw [hm]; exact Int.ceil_natCast m
  unfold generate_multi_pitch_tone
  have hcond : ([p] : List ℝ).length = ([a] : List ℝ).length := rfl
  rw [if_pos hcond]
  simp only [List.map_cons, List.map_nil, List.zip_cons_cons, List.zip_nil_right]
  rw [sumSines]
  have hlen : (make_sine_wave (midi_pitch_to_hz p) a dur sr).length
      = (⌊dur * sr⌋).toNat := by
    rw [make_sine_wave_length, hce, hfl]
  have hzip : List.zipWith (· + ·) (List.replicate (⌊dur * sr⌋.toNat) (0 : ℝ))
      (make_sine_wave (midi_pitch_to_hz p) a dur sr)
      = make_sine_wave (midi_pitch_to_hz p) a dur sr := by
    conv_lhs => rw [← hlen]
    exact zipWith_add_replicate_zero _
  have hadd : addInPlace (List.replicate (⌊dur * sr⌋.toNat) 0)
      (make_sine_wave (midi_pitch_to_hz p) a dur sr)
      = some (make_sine_wave (midi_pitch_to_hz p) a dur sr) := by
    unfold addInPlace
    rw [hlen, List.length_replicate, if_pos rfl, hzip]
  rw [hadd]
  rfl

/-- Witness for C4 at `p = 69`, `a = 1`, `d = 1`, `sr = 1`. -/
theorem generate_single_tone_witness :
    generate_multi_pitch_tone [(69 : ℝ)] [1] 1 1
      = .ok (make_sine_wave (midi_pitch_to_hz 69) 1 1 1) :=
  generate_single_tone 69 1 1 1 ⟨1, by norm_num⟩

/-- C4 counterexample: at `d = 1/2`, `sr = 1` the zero accumulator is empty
(`int(0.5) = 0`), the length-1 sine broadcasts into it and the result is the
empty waveform, which differs from `make_sine_wave`'s 1-sample output. -/
theorem generate_single_tone_cex :
    generate_multi_pitch_tone [(69 : ℝ)] [1] (1 / 2) 1
      ≠ .ok (make_sine_wave (midi_pitch_to_hz 69) 1 (1 / 2) 1) := by
  rw [generate_69_half]
  intro hEq
  have hnil : ([] : List ℝ) = make_sine_wave (midi_pitch_to_hz 69) 1 (1 / 2) 1 :=
    Except.ok.inj hEq
  have hlen := congrArg List.length hnil
  rw [make_sine_wave_length] at hlen
  have hce : ⌈(1 / 2 : ℚ) * 1⌉ = 1 := by
    apply Int.ceil_eq_iff.mpr
    norm_num
  rw [hce] at hlen
  simp at hlen

/-- C8: `generate_multi_pitch_tone` fails with the length assert
(`LengthMismatch`) exactly when the pitch and amplitude lists have different
lengths; with equal lengths that error can never be produced. -/
theorem generate_length_check (pitch_list amp_list : List ℝ) (duration sr : ℚ) :
    generate_multi_pitch_tone pitch_list amp_list duration sr
        = .error .lengthMismatch
      ↔ pitch_list.length ≠ amp_list.length := by
  unfold generate_multi_pitch_tone
  by_cases h : pitch_list.length = amp_list.length
  · rw [if_pos h]
    constructor
    · intro hc
      exact absurd hc (sumSines_ne_lengthMismatch duration sr _ _)
    · intro hc
      exact absurd h hc
  · rw [if_neg h]
    simp [h]

/-- Witness for C8 with lists of lengths 1 and 0. -/
theorem generate_length_check_witness :
    generate_multi_pitch_tone [(60 : ℝ)] [] 1 1 = .error .lengthMismatch :=
  (generate_length_check [60] [] 1 1).mpr (by simp)

/-- C10 (amended): with a non-empty pitch list and non-integer `d*sr`, the
in-place `chord_tone += sine_wave` fails with a shape error whenever
`1 < d*sr` (accumulator `⌊d*sr⌋ ≥ 1` versus sine `⌊d*sr⌋+1`); when
`0 < d*sr < 1` the length-1 sine instead broadcasts against the empty
accumulator and the empty waveform is returned. -/
theorem generate_size_mismatch (p : ℝ) (pl al : List ℝ) (dur sr : ℚ)
    (hlen : (p :: pl).length = al.length)
    (hint : ¬ ∃ n : ℤ, dur * sr = n) :
    (1 < dur * sr →
      generate_multi_pitch_tone (p :: pl) al dur sr = .error .sizeMismatch) ∧
    (0 < dur * sr → dur * sr < 1 →
      generate_multi_pitch_tone (p :: pl) al dur sr = .ok []) := by
  have hceil := ceil_of_not_int hint
  constructor
  · intro hgt
    have hfl1 : 1 ≤ ⌊dur * sr⌋ := by
      apply Int.le_floor.mpr
      exact_mod_cast hgt.le
    unfold generate_multi_pitch_tone
    rw [if_pos hlen]
    obtain ⟨a, al', rfl⟩ : ∃ a al', al = a :: al' := by
      cases al with
      | nil => simp at hlen
      | cons a al' => exact ⟨a, al', rfl⟩
    simp only [List.map_cons, List.zip_cons_cons]
    rw [sumSines]
    have hadd : addInPlace (List.replicate (⌊dur * sr⌋.toNat) 0)
        (make_sine_wave (midi_pitch_to_hz p) a dur sr) = none := by
      unfold addInPlace
      rw [make_sine_wave_length, hceil, List.length_replicate]
      have h1 : (⌊dur * sr⌋ + 1).toNat = ⌊dur * sr⌋.toNat + 1 := by omega
      rw [h1]
      rw [if_neg (by omega), if_neg (by omega)]
    rw [hadd]
    rfl
  · intro hpos hlt
    have hfl0 : ⌊dur * sr⌋ = 0 := by
      apply Int.floor_eq_iff.mpr
      constructor
      · exact_mod_cast hpos.le
      · exact_mod_cast by simpa using hlt
    have hce1 : ⌈dur * sr⌉.toNat = 1 := by rw [hceil, hfl0]; rfl
    unfold generate_multi_pitch_tone
    rw [if_pos hlen]
    have hacc : List.replicate (⌊dur * sr⌋.toNat) (0 : ℝ) = [] := by
      rw [hfl0]; rfl
    rw [hacc]
    exact sumSines_nil_acc dur sr hce1 _

/-- Witness for C10 at `d = 3/2`, `sr = 1`. -/
theorem generate_size_mismatch_witness :
    generate_multi_pitch_tone [(69 : ℝ)] [1] (3 / 2) 1
      = .error .sizeMismatch := by
  have hint : ¬ ∃ n : ℤ, (3 / 2 : ℚ) * 1 = n := by
    rintro ⟨n, hn⟩
    have h3 : (3 : ℚ) = 2 * n := by
      field_simp at hn
      linarith
    have h3' : (3 : ℤ) = 2 * n := by exact_mod_cast h3
    omega
  exact (generate_size_mismatch 69 [] [1] (3 / 2) 1 rfl hint).1 (by norm_num)

/-- C10 counterexample: at `d = 1/2`, `sr = 1` (non-integer `d*sr`) the
function does not raise a size-mismatch error; it returns an empty waveform. -/
theorem generate_nonint_cex :
    generate_multi_pitch_tone [(69 : ℝ)] [1] (1 / 2) 1
      ≠ Except.error ToneError.sizeMismatch := by
  rw [generate_69_half]
  simp

/-- C2: in the 24×3 amplitude table of `define_amplitude`, the middle
column is identically `1.0` and column 0 mirrors column 2:
`amp[i][0] = amp[23-i][2]` for all `i < 24`. -/
theorem define_amplitude_table :
    define_amplitude.length = 24 ∧
    ∀ i : ℕ, i < 24 →
      (define_amplitude.getD i []).getD 1 0 = 1 ∧
      (define_amplitude.getD i []).getD 0 0
        = (define_amplitude.getD (23 - i) []).getD 2 0 := by
  constructor
  · simp [define_amplitude]
  intro i hi
  have h23 : 23 - i < 24 := by omega
  unfold define_amplitude
  rw [getD_range_map _ _ _ hi, getD_range_map _ _ _ h23]
  constructor
  · show (amp_pass1.getD i []).getD 1 0 = 1
    unfold amp_pass1
    rw [getD_range_map _ _ _ hi]
    rfl
  · rfl

/-- Witness for C2 at `i = 5`. -/
theorem define_amplitude_table_witness :
    (define_amplitude.getD 5 []).getD 1 0 = 1 ∧
    (define_amplitude.getD 5 []).getD 0 0
      = (define_amplitude.getD (23 - 5) []).getD 2 0 :=
  define_amplitude_table.2 5 (by norm_num)

/-- C3: `amplitude_to_db` computes `10 · log10(max(value, eps))`
elementwise; with the default floor `1e-10` an exact zero maps to `-100`,
and every output is bounded below by `10 · log10(eps)` (no `-infinity`). -/
theorem amplitude_to_db_spec (S : List (List ℝ)) (eps : ℝ) (heps : 0 < eps) :
    amplitude_to_db_map S eps
        = S.map (fun row => row.map (fun x => 10 * Real.logb 10 (max x eps))) ∧
    amplitude_to_db 0 (1 / 10 ^ 10) = -100 ∧
    ∀ x : ℝ, 10 * Real.logb 10 eps ≤ amplitude_to_db x eps := by
  refine ⟨rfl, ?_, ?_⟩
  · unfold amplitude_to_db
    rw [max_eq_right (by norm_num : (0 : ℝ) ≤ 1 / 10 ^ 10)]
    have h : (1 / 10 ^ 10 : ℝ) = (10 : ℝ) ^ ((-10 : ℤ) : ℝ) := by
      rw [show (((-10 : ℤ)) : ℝ) = -(((10 : ℕ)) : ℝ) by norm_num]
      rw [Real.rpow_neg (by norm_num : (0 : ℝ) ≤ 10), Real.rpow_natCast]
      norm_num
    rw [h, Real.logb_rpow (by norm_num) (by norm_num)]
    norm_num
  · intro x
    unfold amplitude_to_db
    have h1 : eps ≤ max x eps := le_max_right x eps
    have h2 := Real.logb_le_logb_of_le (by norm_num : (1 : ℝ) < 10) heps h1
    linarith

/-- Witness for C3 at `S = [[2]]`, `eps = 1`. -/
theorem amplitude_to_db_spec_witness :
    amplitude_to_db_map [[(2 : ℝ)]] 1
        = [[(2 : ℝ)]].map (fun row => row.map (fun x => 10 * Real.logb 10 (max x 1))) ∧
    amplitude_to_db 0 (1 / 10 ^ 10) = -100 ∧
    ∀ x : ℝ, 10 * Real.logb 10 1 ≤ amplitude_to_db x 1 :=
  amplitude_to_db_spec [[2]] 1 (by norm_num)

/-- C5: `hz_to_mel` computes exactly `2595 · log10(1 + hz/700)`, the
formula the spec fixes as a hard contract. -/
theorem hz_to_mel_eq_spec_formula : ∀ hz : ℝ, hz_to_mel hz = hzToMel_spec_formula hz :=
  fun _ => rfl

/-- C6 (amended): the window `get_spectrogram` multiplies into every frame
is `torch.hann_window n_fft`, the periodic Hann window of length `n_fft`
whose value at index `n` is `0.5·(1 − cos(2π·n/n_fft))`. -/
theorem hann_window_periodic (N : ℕ) :
    (hann_window N).length = N ∧
    ∀ n : ℕ, n < N →
      (hann_window N).getD n 0 = 1 / 2 * (1 - Real.cos (2 * π * n / N)) := by
  refine ⟨hann_window_length N, fun n hn => ?_⟩
  unfold hann_window
  exact getD_range_map _ _ _ hn _

/-- Witness for C6 at `N = 2`, `n = 1`. -/
theorem hann_window_periodic_witness :
    (hann_window 2).getD 1 0 = 1 / 2 * (1 - Real.cos (2 * π * ((1 : ℕ) : ℝ) / ((2 : ℕ) : ℝ))) :=
  (hann_window_periodic 2).2 1 (by norm_num)

/-- C6 counterexample: at `n_fft = 4`, index `n = 1`, the window value is
`0.5·(1 − cos(2π/4)) = 1/2`, not the symmetric-Hann value
`0.5·(1 − cos(2π/(4−1))) = 3/4` the claim states. -/
theorem hann_window_symmetric_cex :
    (hann_window 4).getD 1 0 ≠ 1 / 2 * (1 - Real.cos (2 * π * 1 / (4 - 1))) := by
  have hL : (hann_window 4).getD 1 0
      = 1 / 2 * (1 - Real.cos (2 * π * ((1 : ℕ) : ℝ) / ((4 : ℕ) : ℝ))) := by
    unfold hann_window
    exact getD_range_map _ _ _ (by norm_num) _
  rw [hL]
  have h1 : 2 * π * ((1 : ℕ) : ℝ) / ((4 : ℕ) : ℝ) = π / 2 := by
    push_cast
    ring
  have h2 : 2 * π * 1 / ((4 : ℝ) - 1) = π - π / 3 := by
    ring
  rw [h1, h2, Real.cos_pi_div_two, Real.cos_pi_sub, Real.cos_pi_div_three]
  norm_num

lemma frame_length (audio : List ℝ) (n_fft : ℕ) (power : ℝ) (s : ℕ)
    (h : s + n_fft ≤ audio.length) :
    ((fft (List.zipWith (· * ·) ((audio.drop s).take n_fft) (hann_window n_fft))).map
      (fun z => Complex.abs z ^ power)).length = n_fft := by
  rw [List.length_map, fft_length, List.length_zipWith, hann_window_length,
    List.length_take, List.length_drop]
  omega

/-- C1: for 1-D input of length `N ≥ n_fft` (with positive `n_fft` and
`hop_size`), `get_spectrogram` succeeds and returns a spectrogram with
exactly `n_fft/2 + 1` frequency rows, each of exactly
`(N − n_fft)/hop_size + 1` time frames (trailing samples that do not fill
a complete window contribute no frame). -/
theorem get_spectrogram_shape (audio : List ℝ) (n_fft hop_size : ℕ) (power : ℝ)
    (hfft : 0 < n_fft) (hhop : 0 < hop_size) (hN : n_fft ≤ audio.length) :
    ∃ S, get_spectrogram audio n_fft hop_size power = some S ∧
      S.length = n_fft / 2 + 1 ∧
      ∀ row ∈ S, row.length = (audio.length - n_fft) / hop_size + 1 := by
  have hstop : ((audio.length : ℤ) - n_fft + 1).toNat = audio.length - n_fft + 1 := by
    omega
  have hslen : (rangeStep 0 (audio.length - n_fft + 1) hop_size).length
      = (audio.length - n_fft) / hop_size + 1 := by
    rw [rangeStep_length hop_size hhop (audio.length - n_fft + 1) 0
      (audio.length - n_fft + 1) (by omega)]
    have he : audio.length - n_fft + 1 - 0 + hop_size - 1
        = (audio.length - n_fft) + hop_size := by omega
    rw [he, Nat.add_div_right _ hhop]
  have hne : rangeStep 0 (audio.length - n_fft + 1) hop_size ≠ [] := by
    intro h0
    rw [h0] at hslen
    simp at hslen
  obtain ⟨s, t, hst⟩ := List.exists_cons_of_ne_nil hne
  have hs_mem : s < audio.length - n_fft + 1 := by
    apply rangeStep_mem_lt hop_size (audio.length - n_fft + 1) 0
      (audio.length - n_fft + 1) (by omega) s
    rw [hst]
    exact List.mem_cons_self s t
  have hs_fit : s + n_fft ≤ audio.length := by omega
  simp only [get_spectrogram]
  rw [hstop, hst]
  simp only [List.map_cons, List.headI_cons]
  rw [if_neg (by simp)]
  refine ⟨_, rfl, ?_, ?_⟩
  · rw [List.length_take, List.length_map, List.length_range,
      frame_length audio n_fft power s hs_fit]
    omega
  · intro row hrow
    have hrow' := List.take_subset _ _ hrow
    rw [List.mem_map] at hrow'
    obtain ⟨r, _, hrw⟩ := hrow'
    rw [← hrw, List.length_cons, List.length_map, List.length_map]
    have h2 := hslen
    rw [hst, List.length_cons] at h2
    omega

/-- Witness for C1: input of length 4 with `n_fft = 2`, `hop_size = 1`
gives 2 frequency rows of 3 frames each. -/
theorem get_spectrogram_shape_witness :
    ∃ S, get_spectrogram (List.replicate 4 (0 : ℝ)) 2 1 2 = some S ∧
      S.length = 2 ∧ ∀ row ∈ S, row.length = 3 := by
  have h := get_spectrogram_shape (List.replicate 4 0) 2 1 2
    (by norm_num) (by norm_num) (by simp)
  simpa using h

/-- C9: with fewer than `n_fft` input samples, the frame loop produces no
frames and `torch.stack` of an empty list raises (modelled as `none`)
instead of returning a zero-frame spectrogram. -/
theorem get_spectrogram_short_input (audio : List ℝ) (n_fft hop_size : ℕ)
    (power : ℝ) (h : audio.length < n_fft) :
    get_spectrogram audio n_fft hop_size power = none := by
  simp only [get_spectrogram]
  have hstop : ((audio.length : ℤ) - n_fft + 1).toNat = 0 := by omega
  rw [hstop]
  have hr : rangeStep 0 0 hop_size = [] := by
    rw [rangeStep]
    simp
  rw [hr]
  simp

/-- Witness for C9: a single sample with `n_fft = 2`. -/
theorem get_spectrogram_short_input_witness :
    get_spectrogram [(0 : ℝ)] 2 1 2 = none :=
  get_spectrogram_short_input [0] 2 1 2 (by simp)

end MIR
